import Mathlib

set_option linter.unusedVariables false

/-! Shallow embedding of the CoinGecko data-access layer (`utils.py`), of the
portfolio page's add-holding handler, and of the TTL result cache of the
crypto dashboard, together with theorems checking the specification's
claims about them.

Conventions: machine floats carried by the JSON payloads only ever flow
through untouched or are compared to zero, so numeric JSON values are
modelled as integers (prices, volumes, ranks) or rationals (form inputs);
millisecond timestamps are integers; `pd.to_datetime(ts, unit="ms")` is a
strictly monotone injection of the integer timestamp, so ordering and
duplicate elimination by the `date` column coincide with ordering by the
`timestamp` field kept here. -/

/-- A JSON scalar as the pandas coercion `pd.to_numeric(..., errors="coerce")`
sees it: a number, JSON null, a string, or any other non-numeric value. -/
inductive Jv where
  | num (x : Int)
  | null
  | str (s : String)
  | other
  deriving DecidableEq, Repr

/-- `pd.to_numeric(..., errors="coerce")` on one value: numbers survive,
everything else becomes NaN (modelled as `none`). -/
def toNum : Jv → Option Int
  | .num x => some x
  | _ => none

/-- A user-visible side-effect notification (`st.warning` / `st.error` /
`st.success` call) emitted by an operation. -/
inductive Notice where
  | rateLimited (op : String)
  | httpFailure (op : String) (status : Nat)
  | networkFailure (op : String)
  | processingFailure (op : String)
  | notFound (op : String)
  | unauthorized (op : String)
  | missingPrice (id : String)
  | noValidIds
  | holdingAdded (name : String)
  | coinIdNotFound (name : String)
  | selectCoinFirst
  | nonpositiveQuantity
  deriving DecidableEq, Repr

/-- Outcome of one `requests.get` / `raise_for_status()` / `.json()` sequence
as the `try` bodies in `utils.py` observe it. `ok` carries the parsed payload
in the coarse shape the function expects; `badShape` is a successfully parsed
JSON document of a different top-level shape, which makes the subsequent
processing raise; `malformedJson` is a `.json()` failure (a
`requests.exceptions.JSONDecodeError`, which is a `RequestException`);
`httpError s` is a 4xx/5xx answer, making `raise_for_status()` raise an
`HTTPError` with that status; `networkError` is a `RequestException` raised
by `requests.get` itself. -/
inductive HttpResult (α : Type) where
  | ok (payload : α)
  | badShape
  | malformedJson
  | httpError (status : Nat)
  | networkError
  deriving Repr

/-- A Python value appearing in the `coin_ids` argument of
`get_current_prices`: only `str` and `int` pass the
`isinstance(id, (str, int))` check; everything else (floats, None, lists,
dicts) is `other`. -/
inductive PyVal where
  | str (s : String)
  | int (n : Int)
  | other
  deriving DecidableEq, Repr

/-- Python's `str.strip()` with no argument: remove whitespace from both
ends of the string. -/
def pyStrip (s : String) : String :=
  ⟨((s.data.dropWhile Char.isWhitespace).reverse.dropWhile Char.isWhitespace).reverse⟩

/-- One step of the comprehension
`[str(id) for id in coin_ids if isinstance(id, (str, int)) and str(id).strip()]`:
the survivor it contributes, if any. `str(x)` of a string is the string
itself; of an integer it is its decimal rendering; `strip()` truthiness is
non-emptiness after stripping whitespace. -/
def pyValidStr : PyVal → Option String
  | .str s => if pyStrip s = "" then none else some s
  | .int n => if pyStrip (toString n) = "" then none else some (toString n)
  | .other => none

/-- `valid_coin_ids` in `get_current_prices` (utils.py line 274). -/
def validCoinIds (coin_ids : List PyVal) : List String :=
  coin_ids.filterMap pyValidStr

/-- Payload of `/simple/price`: for each coin id, a mapping from currency to
price. -/
abbrev PriceData := List (String × List (String × Int))

/-- `data.get(coin_id, dict()).get(currency)` on such a payload. -/
def lookupPrice (data : PriceData) (id cur : String) : Option Int :=
  match data.find? (fun e => e.1 == id) with
  | some e => (e.2.find? (fun p => p.1 == cur)).map (fun p => p.2)
  | none => none

/-- A Python exception escaping a data-access function to its caller. -/
inductive PyExc where
  | unboundLocal (name : String)
  deriving DecidableEq, Repr

instance {ε α : Type} [DecidableEq ε] [DecidableEq α] : DecidableEq (Except ε α) :=
  fun x y =>
    match x, y with
    | .error a, .error b =>
        if h : a = b then .isTrue (congrArg Except.error h)
        else .isFalse (fun hc => h (Except.error.inj hc))
    | .ok a, .ok b =>
        if h : a = b then .isTrue (congrArg Except.ok h)
        else .isFalse (fun hc => h (Except.ok.inj hc))
    | .error _, .ok _ => .isFalse (fun hc => Except.noConfusion hc)
    | .ok _, .error _ => .isFalse (fun hc => Except.noConfusion hc)

/-- Observable outcome of one `get_current_prices` invocation: how many HTTP
requests were issued, which ids were placed in the request URL, and either
the returned prices dict plus the emitted notices, or the exception that
escaped to the caller. -/
structure PriceFetch where
  networkCalls : Nat
  requestedIds : List String
  result : Except PyExc (List (String × Option Int) × List Notice)
  deriving Repr, DecidableEq

/-- `get_current_prices(coin_ids, currency)` from `utils.py` (lines 267-310)
as a function of the HTTP outcome. Faithful points: an empty `coin_ids`
returns the empty dict at once; if validation leaves no id a warning is
emitted and the empty dict returned, both without touching the network; on
a successful response each valid id is looked up individually, a `None`
price drawing a warning naming that id. In the `except HTTPError` handler
the code evaluates `isinstance(data, dict)`, but `data` is assigned only
after `raise_for_status()` — the sole raiser of `HTTPError` here — so the
local name is always unbound in that handler and an `UnboundLocalError`
escapes to the caller (the rate-limit or HTTP warning is printed just
before the crash and is not recorded here). A `RequestException` from the
transport or from `.json()` returns the (still empty) `prices` dict after a
warning, and any processing error is absorbed by the final
`except Exception`. -/
def get_current_prices (coin_ids : List PyVal) (currency : String)
    (resp : HttpResult PriceData) : PriceFetch :=
  match coin_ids with
  | [] => ⟨0, [], .ok ([], [])⟩
  | _ :: _ =>
    let valid := validCoinIds coin_ids
    if valid.isEmpty then ⟨0, [], .ok ([], [Notice.noValidIds])⟩
    else
      match resp with
      | .ok data =>
          let prices := valid.map (fun id => (id, lookupPrice data id currency))
          let notices := valid.filterMap (fun id =>
            if lookupPrice data id currency = none
            then some (Notice.missingPrice id) else none)
          ⟨1, valid, .ok (prices, notices)⟩
      | .badShape => ⟨1, valid, .ok ([], [Notice.processingFailure "prices"])⟩
      | .malformedJson => ⟨1, valid, .ok ([], [Notice.networkFailure "prices"])⟩
      | .networkError => ⟨1, valid, .ok ([], [Notice.networkFailure "prices"])⟩
      | .httpError s => ⟨1, valid, .error (.unboundLocal "data")⟩

/-- C1: the claim states every data-access operation absorbs every failure
condition and never raises to its caller. The code contradicts it (and its
own comments, which promise to return partial data on HTTP errors): on an
HTTP 429 — the spec's own simulated failure — `get_current_prices` crashes
in its `except HTTPError` handler on the unbound local `data`, and the
`UnboundLocalError` escapes to the caller instead of any default value. -/
theorem get_current_prices_http_error_raises :
    get_current_prices [PyVal.str "bitcoin"] "usd" (.httpError 429)
      = ⟨1, ["bitcoin"], .error (.unboundLocal "data")⟩ := by decide

/-- `isinstance(id, (str, int))` on one element of `coin_ids`. -/
def isStrOrInt : PyVal → Bool
  | .other => false
  | _ => true

theorem pyValidStr_nonblank {v : PyVal} {s : String}
    (h : pyValidStr v = some s) : pyStrip s ≠ "" := by
  cases v with
  | str t =>
      by_cases hb : pyStrip t = ""
      · simp [pyValidStr, hb] at h
      · simp [pyValidStr, hb] at h
        exact h ▸ hb
  | int n =>
      by_cases hb : pyStrip (toString n) = ""
      · simp [pyValidStr, hb] at h
      · simp [pyValidStr, hb] at h
        exact h ▸ hb
  | other => simp [pyValidStr] at h

theorem mem_validCoinIds_nonblank {l : List PyVal} {s : String}
    (h : s ∈ validCoinIds l) : pyStrip s ≠ "" := by
  obtain ⟨v, hv, hs⟩ := List.mem_filterMap.mp h
  exact pyValidStr_nonblank hs

theorem validCoinIds_filter (l : List PyVal) :
    validCoinIds (l.filter isStrOrInt) = validCoinIds l := by
  induction l with
  | nil => rfl
  | cons v vs ih =>
      cases v with
      | str s =>
          by_cases hb : pyStrip s = "" <;>
            simp [validCoinIds, List.filter_cons, isStrOrInt, List.filterMap_cons,
              pyValidStr, hb] at ih ⊢ <;> exact ih
      | int n =>
          by_cases hb : pyStrip (toString n) = "" <;>
            simp [validCoinIds, List.filter_cons, isStrOrInt, List.filterMap_cons,
              pyValidStr, hb] at ih ⊢ <;> exact ih
      | other =>
          simpa [validCoinIds, List.filter_cons, isStrOrInt, List.filterMap_cons,
            pyValidStr] using ih

/-- C10: the batch current-price lookup short-circuits on degenerate input:
an empty id collection returns the empty mapping with no network call and
no warning; a non-empty collection whose validation leaves no id returns
the empty mapping with a warning and no network call; whenever a request
is built it carries exactly the validated ids, which contain no blank
string, and elements that are not strings or integers are filtered out
before the request is built. -/
theorem current_prices_degenerate (coin_ids : List PyVal) (currency : String)
    (resp : HttpResult PriceData) :
    (coin_ids = [] →
      get_current_prices coin_ids currency resp = ⟨0, [], .ok ([], [])⟩) ∧
    (coin_ids ≠ [] → validCoinIds coin_ids = [] →
      get_current_prices coin_ids currency resp
        = ⟨0, [], .ok ([], [Notice.noValidIds])⟩) ∧
    ((get_current_prices coin_ids currency resp).networkCalls = 0 ∧
        (get_current_prices coin_ids currency resp).requestedIds = [] ∨
      (get_current_prices coin_ids currency resp).networkCalls = 1 ∧
        (get_current_prices coin_ids currency resp).requestedIds
          = validCoinIds coin_ids) ∧
    (∀ s ∈ (get_current_prices coin_ids currency resp).requestedIds,
      pyStrip s ≠ "") ∧
    validCoinIds (coin_ids.filter isStrOrInt) = validCoinIds coin_ids := by
  refine ⟨?_, ?_, ?_, ?_, validCoinIds_filter coin_ids⟩
  · intro h; subst h; rfl
  · intro hne hval
    cases coin_ids with
    | nil => exact absurd rfl hne
    | cons v vs => simp [get_current_prices, hval]
  · cases coin_ids with
    | nil => exact Or.inl ⟨rfl, rfl⟩
    | cons v vs =>
        by_cases hval : (validCoinIds (v :: vs)).isEmpty
        · exact Or.inl (by simp [get_current_prices, hval])
        · refine Or.inr ?_
          cases resp <;> simp [get_current_prices, hval]
  · intro s hs
    cases coin_ids with
    | nil => simp [get_current_prices] at hs
    | cons v vs =>
        by_cases hval : (validCoinIds (v :: vs)).isEmpty
        · simp [get_current_prices, hval] at hs
        · have : s ∈ validCoinIds (v :: vs) := by
            cases resp <;> simpa [get_current_prices, hval] using hs
          exact mem_validCoinIds_nonblank this

/-- C10 witness: the empty collection and an all-invalid collection (a
float-like element and a blank string) both short-circuit. -/
theorem current_prices_degenerate_witness :
    get_current_prices [] "usd" (.ok []) = ⟨0, [], .ok ([], [])⟩ ∧
    get_current_prices [PyVal.other, PyVal.str "  "] "usd" (.ok [])
      = ⟨0, [], .ok ([], [Notice.noValidIds])⟩ :=
  ⟨(current_prices_degenerate [] "usd" (.ok [])).1 rfl,
   (current_prices_degenerate [PyVal.other, PyVal.str "  "] "usd" (.ok [])).2.1
     (by decide) (by decide)⟩

/-- C8: on a successful batch price response, every validated id is mapped
individually: the id is present in the returned mapping with exactly the
price the payload holds for it (an explicit `none` marker when the payload
has none), and a warning naming that specific id is emitted exactly when
its price is absent — the other ids of the batch keep their own results. -/
theorem current_prices_per_id (coin_ids : List PyVal) (currency : String)
    (data : PriceData) (id : String)
    (hmem : id ∈ validCoinIds coin_ids) :
    ∃ prices notices,
      (get_current_prices coin_ids currency (.ok data)).result
          = .ok (prices, notices) ∧
      (id, lookupPrice data id currency) ∈ prices ∧
      (lookupPrice data id currency = none ↔
        Notice.missingPrice id ∈ notices) := by
  cases coin_ids with
  | nil => simp [validCoinIds] at hmem
  | cons v vs =>
      have hne : (validCoinIds (v :: vs)).isEmpty = false := by
        cases h : validCoinIds (v :: vs) with
        | nil => rw [h] at hmem; simp at hmem
        | cons a as => rfl
      refine ⟨(validCoinIds (v :: vs)).map
          (fun i => (i, lookupPrice data i currency)),
        (validCoinIds (v :: vs)).filterMap (fun i =>
          if lookupPrice data i currency = none
          then some (Notice.missingPrice i) else none), ?_, ?_, ?_⟩
      · simp [get_current_prices, hne]
      · exact List.mem_map.mpr ⟨id, hmem, rfl⟩
      · constructor
        · intro hnone
          exact List.mem_filterMap.mpr ⟨id, hmem, by simp [hnone]⟩
        · intro hmem2
          obtain ⟨a, ha, hsome⟩ := List.mem_filterMap.mp hmem2
          by_cases hl : lookupPrice data a currency = none
          · simp [hl] at hsome
            exact hsome ▸ hl
          · simp [hl] at hsome

/-- C8 witness: the spec's scenario, a batch of bitcoin and a nonexistent
id; bitcoin keeps its numeric price, the bad id maps to the absent marker
and draws a warning naming it. -/
theorem current_prices_per_id_witness :
    (∃ prices notices,
      (get_current_prices [PyVal.str "bitcoin", PyVal.str "not-a-real-id"]
          "usd" (.ok [("bitcoin", [("usd", 67000)])])).result
          = .ok (prices, notices) ∧
      ("bitcoin", some (67000 : Int)) ∈ prices ∧
      ((some (67000 : Int) : Option Int) = none ↔
        Notice.missingPrice "bitcoin" ∈ notices)) ∧
    (∃ prices notices,
      (get_current_prices [PyVal.str "bitcoin", PyVal.str "not-a-real-id"]
          "usd" (.ok [("bitcoin", [("usd", 67000)])])).result
          = .ok (prices, notices) ∧
      ("not-a-real-id", (none : Option Int)) ∈ prices ∧
      ((none : Option Int) = none ↔
        Notice.missingPrice "not-a-real-id" ∈ notices)) :=
  ⟨current_prices_per_id _ "usd" _ "bitcoin" (by decide),
   current_prices_per_id _ "usd" _ "not-a-real-id" (by decide)⟩

/-- One portfolio holding as stored in `st.session_state.portfolio` by the
Portfolio Management page: coin id, display name, quantity, and the
optional purchase price (`None` when the form field was left at 0). Form
numbers are modelled as exact rationals. -/
structure Holding where
  id : String
  name : String
  quantity : ℚ
  purchase_price : Option ℚ
  deriving DecidableEq, Repr

/-- Python's `str.lower()` (the coin names involved are ASCII). -/
def pyLower (s : String) : String :=
  ⟨s.data.map Char.toLower⟩

/-- The submit handler of `add_holding_form`
(`8_Portfolio_Management.py` lines 102-122). The code comments and chooses
the simple approach: it always appends a fresh dict to
`st.session_state.portfolio`; there is no merge with an existing holding
of the same coin id. The guard mirrors
`if selected_coin_name and quantity > 0` with Python string truthiness,
and the name is resolved through the lowercased-name-to-id map. -/
def addHolding (coin_map : List (String × String)) (portfolio : List Holding)
    (selected_coin_name : String) (quantity purchase_price : ℚ) :
    List Holding × List Notice :=
  if selected_coin_name ≠ "" ∧ quantity > 0 then
    match coin_map.find? (fun e => e.1 == pyLower selected_coin_name) with
    | some e =>
        (portfolio ++
          [⟨e.2, selected_coin_name, quantity,
            if purchase_price > 0 then some purchase_price else none⟩],
         [Notice.holdingAdded selected_coin_name])
    | none => (portfolio, [Notice.coinIdNotFound selected_coin_name])
  else if selected_coin_name = "" then (portfolio, [Notice.selectCoinFirst])
  else (portfolio, [Notice.nonpositiveQuantity])

/-- The portfolio after submitting "Bitcoin" with quantity 1 and then again
with quantity 2, starting from an empty portfolio. -/
def portfolioAfterTwoAdds : List Holding :=
  (addHolding [("bitcoin", "bitcoin")]
    ((addHolding [("bitcoin", "bitcoin")] [] "Bitcoin" 1 0).1)
    "Bitcoin" 2 0).1

/-- C2 counterexample: adding bitcoin with quantity 1 and then again with
quantity 2 leaves two separate holdings of that id, with quantities 1 and
2 — not the single merged holding of quantity 3 the claim asserts. -/
theorem portfolio_add_twice_two_holdings :
    (portfolioAfterTwoAdds.filter (fun h => h.id == "bitcoin")).length = 2 ∧
    ¬ (portfolioAfterTwoAdds.filter
        (fun h => h.id == "bitcoin")).length = 1 ∧
    ∀ h ∈ portfolioAfterTwoAdds, h.quantity ≠ 3 := by decide

/-- C2 amended: adding a holding whose coin id already exists in the
portfolio appends a second, separate holding: after adding the same
(resolvable, non-blank) coin name twice with positive quantities q1 and
q2, the portfolio holds the original list plus two new holdings of that
coin id with quantities q1 and q2 respectively, each with its own
purchase price (recorded only when positive). -/
theorem portfolio_add_appends (coin_map : List (String × String))
    (portfolio : List Holding) (nm : String) (e : String × String)
    (q1 q2 pp1 pp2 : ℚ)
    (hfind : coin_map.find? (fun x => x.1 == pyLower nm) = some e)
    (hn : nm ≠ "") (h1 : q1 > 0) (h2 : q2 > 0) :
    (addHolding coin_map
        (addHolding coin_map portfolio nm q1 pp1).1 nm q2 pp2).1
      = portfolio ++
          [⟨e.2, nm, q1, if pp1 > 0 then some pp1 else none⟩,
           ⟨e.2, nm, q2, if pp2 > 0 then some pp2 else none⟩] := by
  simp [addHolding, hfind, hn, h1, h2]

/-- C2 amended witness: the concrete double add of bitcoin. -/
theorem portfolio_add_appends_witness :
    portfolioAfterTwoAdds
      = [⟨"bitcoin", "Bitcoin", 1, none⟩, ⟨"bitcoin", "Bitcoin", 2, none⟩] := by
  have h0 : ¬ ((0 : ℚ) > 0) := by norm_num
  have h := portfolio_add_appends [("bitcoin", "bitcoin")] [] "Bitcoin"
    ("bitcoin", "bitcoin") 1 2 0 0 (by decide) (by decide) (by norm_num)
    (by norm_num)
  simpa [portfolioAfterTwoAdds, h0] using h

/-- Modelled from the spec: the Result Cache is `st.cache_data`, Streamlit
library code that is not part of this repository (the repository only
applies it as a decorator with a per-operation TTL). Spec section 4.2: the
cache key is the operation's exact argument tuple, a hit within the TTL
returns the stored value without any network call, and a miss or expiry
runs the underlying fetch and stores its result — defaults from failed
fetches included. One such cache exists per operation; `κ` is the
argument-tuple type, `α` the operation's result type. -/
structure CacheEntry (α : Type) where
  value : α
  storedAt : Nat
  deriving DecidableEq, Repr

/-- Modelled from the spec: look the key up in the cache state. -/
def cacheLookup {κ α : Type} [BEq κ] (st : List (κ × CacheEntry α))
    (k : κ) : Option (CacheEntry α) :=
  (st.find? (fun e => e.1 == k)).map (fun e => e.2)

/-- Modelled from the spec: one cached invocation at time `now` (seconds).
Returns the result, the updated cache state, and the number of network
calls performed by the underlying fetch (0 on a fresh hit, otherwise 1;
the fetch itself performs exactly one transport call). -/
def cachedCall {κ α : Type} [BEq κ] (ttl : Nat) (fetch : Unit → α)
    (st : List (κ × CacheEntry α)) (k : κ) (now : Nat) :
    α × List (κ × CacheEntry α) × Nat :=
  match cacheLookup st k with
  | some e =>
      if now - e.storedAt < ttl then (e.value, st, 0)
      else (fetch (), (k, ⟨fetch (), now⟩) :: st.filter (fun x => !(x.1 == k)), 1)
  | none => (fetch (), (k, ⟨fetch (), now⟩) :: st, 1)

/-- C3: a first invocation on a cold key performs one network call and
stores its result; re-invoking with the identical key within the TTL
performs zero network calls and returns the previously computed value
unchanged — whatever the underlying fetch would now return (`fetch2` is
never consulted), so a cached empty/default value from a failed fetch is
served without retrying the network. -/
theorem cache_hit_within_ttl {κ α : Type} [BEq κ] [LawfulBEq κ]
    (ttl : Nat) (fetch fetch2 : Unit → α)
    (st0 : List (κ × CacheEntry α)) (k : κ) (t0 t1 : Nat)
    (hmiss : cacheLookup st0 k = none) (hfresh : t1 - t0 < ttl) :
    (cachedCall ttl fetch st0 k t0).2.2 = 1 ∧
    (cachedCall ttl fetch st0 k t0).1 = fetch () ∧
    (cachedCall ttl fetch2 (cachedCall ttl fetch st0 k t0).2.1 k t1).1
      = fetch () ∧
    (cachedCall ttl fetch2 (cachedCall ttl fetch st0 k t0).2.1 k t1).2.2
      = 0 ∧
    (cachedCall ttl fetch2 (cachedCall ttl fetch st0 k t0).2.1 k t1).2.1
      = (cachedCall ttl fetch st0 k t0).2.1 := by
  have h1 : cachedCall ttl fetch st0 k t0
      = (fetch (), (k, ⟨fetch (), t0⟩) :: st0, 1) := by
    simp [cachedCall, hmiss]
  have h2 : cacheLookup ((k, (⟨fetch (), t0⟩ : CacheEntry α)) :: st0) k
      = some ⟨fetch (), t0⟩ := by
    simp [cacheLookup, List.find?]
  rw [h1]
  refine ⟨rfl, rfl, ?_, ?_, ?_⟩ <;> simp [cachedCall, h2, hfresh]

/-- C3 witness: the coin-list operation's 6-hour TTL; the first fetch
fails and caches the empty mapping, and 21599 seconds later the empty
mapping is served again with zero network calls even though the provider
would now answer. -/
theorem cache_hit_within_ttl_witness :
    (cachedCall 21600 (fun _ => ([] : List (String × String)))
        [] "coins/list" 0).2.2 = 1 ∧
    (cachedCall 21600 (fun _ => ([] : List (String × String)))
        [] "coins/list" 0).1 = (fun _ => ([] : List (String × String))) () ∧
    (cachedCall 21600 (fun _ => [("bitcoin", "bitcoin")])
        (cachedCall 21600 (fun _ => ([] : List (String × String)))
          [] "coins/list" 0).2.1 "coins/list" 21599).1
      = (fun _ => ([] : List (String × String))) () ∧
    (cachedCall 21600 (fun _ => [("bitcoin", "bitcoin")])
        (cachedCall 21600 (fun _ => ([] : List (String × String)))
          [] "coins/list" 0).2.1 "coins/list" 21599).2.2 = 0 ∧
    (cachedCall 21600 (fun _ => [("bitcoin", "bitcoin")])
        (cachedCall 21600 (fun _ => ([] : List (String × String)))
          [] "coins/list" 0).2.1 "coins/list" 21599).2.1
      = (cachedCall 21600 (fun _ => ([] : List (String × String)))
          [] "coins/list" 0).2.1 :=
  cache_hit_within_ttl 21600 (fun _ => []) (fun _ => [("bitcoin", "bitcoin")])
    [] "coins/list" 0 21599 rfl (by decide)

/-- One raw point of the provider's `prices` or `total_volumes` array: a
pair of a millisecond timestamp and a value. (A payload whose points are
not such pairs makes `pd.DataFrame(..., columns=[...])` raise, which the
processing handler absorbs; that shape is covered by
`HttpResult.badShape`.) -/
abbrev RawPoint := Int × Jv

/-- One row of the returned historical table: timestamp (ms), price,
volume. The `date` column is the strictly monotone image
`pd.to_datetime(timestamp, unit="ms")`, so sorting and duplicate
elimination by `date` coincide with doing so by this timestamp. -/
abbrev HistRow := Int × Int × Int

/-- `pd.merge(df_prices, df_volumes, on="timestamp", how="inner")`: for
each price row in order, one output row per volume row carrying an equal
timestamp (pandas preserves the order of the left keys on an inner
join). -/
def innerMerge (ps vs : List RawPoint) : List (Int × Jv × Jv) :=
  ps.flatMap (fun p =>
    (vs.filter (fun v => v.1 == p.1)).map (fun v => (p.1, p.2, v.2)))

/-- The branch at `utils.py` lines 92-98: inner-merge when both arrays are
non-empty, pad the volume column with 0 when only prices are present, and
return the empty table at once when prices are empty (regardless of the
volumes array). -/
def mergeStage (ps vs : List RawPoint) : Option (List (Int × Jv × Jv)) :=
  match ps, vs with
  | p :: ps1, v :: vs1 => some (innerMerge (p :: ps1) (v :: vs1))
  | p :: ps1, [] => some ((p :: ps1).map (fun q => (q.1, q.2, Jv.num 0)))
  | [], _ => none

/-- Lines 102-105: coerce price and volume to numbers, drop rows whose
price is non-numeric, fill non-numeric volumes with 0. -/
def coerceRows (rows : List (Int × Jv × Jv)) : List HistRow :=
  rows.filterMap (fun r =>
    (toNum r.2.1).map (fun p => (r.1, p, (toNum r.2.2).getD 0)))

/-- Insertion into a timestamp-sorted list (`sort_values(by="date")`; the
claims proved below do not depend on how the sort breaks ties). -/
def insertTs (x : HistRow) : List HistRow → List HistRow
  | [] => [x]
  | y :: ys => if x.1 ≤ y.1 then x :: y :: ys else y :: insertTs x ys

/-- Sorting by timestamp. -/
def sortTs : List HistRow → List HistRow
  | [] => []
  | x :: xs => insertTs x (sortTs xs)

/-- `drop_duplicates(subset=["date"])`: scan left to right and keep the
first row for each timestamp; `seen` holds the timestamps already kept. -/
def dedupTsAux (seen : List Int) : List HistRow → List HistRow
  | [] => []
  | x :: xs =>
      if x.1 ∈ seen then dedupTsAux seen xs
      else x :: dedupTsAux (x.1 :: seen) xs

/-- `drop_duplicates(subset=["date"])` over the whole table. -/
def dedupTs (l : List HistRow) : List HistRow := dedupTsAux [] l

/-- The whole reshaping pipeline of `get_historical_data` on a payload with
price array `ps` and volume array `vs`. -/
def histRows (ps vs : List RawPoint) : List HistRow :=
  match mergeStage ps vs with
  | none => []
  | some rows => dedupTs (sortTs (coerceRows rows))

/-- Payload of `/coins/{id}/market_chart`: the `prices` and
`total_volumes` arrays (`data.get` with default `[]`, so an absent key is
the empty array). -/
structure HistPayload where
  prices : List RawPoint
  total_volumes : List RawPoint
  deriving Repr

/-- The status-dependent notice of `get_historical_data`'s HTTPError
handler (429 / 401 / 404 / other). -/
def histHttpNotice (s : Nat) : Notice :=
  if s = 429 then .rateLimited "historical data"
  else if s = 401 then .unauthorized "historical data"
  else if s = 404 then .notFound "historical data"
  else .httpFailure "historical data" s

/-- `get_historical_data(coin_id, currency, days)` from `utils.py` (lines
73-128) as a function of the HTTP outcome. Every failure path — HTTP
error, network error, malformed JSON, or a processing error caught by
`except (KeyError, TypeError, ValueError)` — returns the empty table plus
a notice. -/
def get_historical_data (coin_id currency : String) (days : Nat)
    (resp : HttpResult HistPayload) : List HistRow × List Notice :=
  match resp with
  | .ok data => (histRows data.prices data.total_volumes, [])
  | .badShape => ([], [Notice.processingFailure "historical data"])
  | .malformedJson => ([], [Notice.networkFailure "historical data"])
  | .networkError => ([], [Notice.networkFailure "historical data"])
  | .httpError s => ([], [histHttpNotice s])

theorem mem_insertTs {z x : HistRow} {l : List HistRow} :
    z ∈ insertTs x l ↔ z = x ∨ z ∈ l := by
  induction l with
  | nil => simp [insertTs]
  | cons y ys ih =>
      by_cases h : x.1 ≤ y.1
      · simp [insertTs, h]
      · simp [insertTs, h, ih]
        tauto

theorem pairwise_insertTs {x : HistRow} {l : List HistRow}
    (h : l.Pairwise (fun a b => a.1 ≤ b.1)) :
    (insertTs x l).Pairwise (fun a b => a.1 ≤ b.1) := by
  induction l with
  | nil => simp [insertTs]
  | cons y ys ih =>
      rw [List.pairwise_cons] at h
      obtain ⟨hy, hys⟩ := h
      by_cases hxy : x.1 ≤ y.1
      · simp only [insertTs, if_pos hxy]
        refine List.Pairwise.cons ?_ (List.Pairwise.cons hy hys)
        intro z hz
        rcases List.mem_cons.mp hz with rfl | hz
        · exact hxy
        · exact le_trans hxy (hy z hz)
      · simp only [insertTs, if_neg hxy]
        refine List.Pairwise.cons ?_ (ih hys)
        intro z hz
        rcases mem_insertTs.mp hz with rfl | hz
        · exact le_of_not_le hxy
        · exact hy z hz

theorem sorted_sortTs (l : List HistRow) :
    (sortTs l).Pairwise (fun a b => a.1 ≤ b.1) := by
  induction l with
  | nil => simp [sortTs]
  | cons x xs ih => exact pairwise_insertTs ih

theorem mem_sortTs {z : HistRow} {l : List HistRow} :
    z ∈ sortTs l ↔ z ∈ l := by
  induction l with
  | nil => simp [sortTs]
  | cons x xs ih => simp [sortTs, mem_insertTs, ih]

theorem mem_dedupTsAux {z : HistRow} {seen : List Int} {l : List HistRow}
    (h : z ∈ dedupTsAux seen l) : z ∈ l := by
  induction l generalizing seen with
  | nil => exact h
  | cons x xs ih =>
      by_cases hx : x.1 ∈ seen
      · simp only [dedupTsAux, if_pos hx] at h
        exact List.mem_cons_of_mem _ (ih h)
      · simp only [dedupTsAux, if_neg hx] at h
        rcases List.mem_cons.mp h with rfl | h
        · exact List.mem_cons_self _ _
        · exact List.mem_cons_of_mem _ (ih h)

theorem dedupTsAux_keys (seen : List Int) (l : List HistRow) :
    (∀ z ∈ dedupTsAux seen l, z.1 ∉ seen) ∧
    (dedupTsAux seen l).Pairwise (fun a b => a.1 ≠ b.1) := by
  induction l generalizing seen with
  | nil => simp [dedupTsAux]
  | cons x xs ih =>
      by_cases hx : x.1 ∈ seen
      · simpa only [dedupTsAux, if_pos hx] using ih seen
      · simp only [dedupTsAux, if_neg hx]
        obtain ⟨hnot, hnd⟩ := ih (x.1 :: seen)
        refine ⟨?_, ?_⟩
        · intro z hz
          rcases List.mem_cons.mp hz with rfl | hz
          · exact hx
          · exact fun hc => (hnot z hz) (List.mem_cons_of_mem _ hc)
        · refine List.Pairwise.cons ?_ hnd
          intro z hz
          exact fun hc => (hnot z hz) (hc ▸ List.mem_cons_self _ _)

theorem dedupTsAux_sublist (seen : List Int) (l : List HistRow) :
    (dedupTsAux seen l).Sublist l := by
  induction l generalizing seen with
  | nil => simp [dedupTsAux]
  | cons x xs ih =>
      by_cases hx : x.1 ∈ seen
      · simp only [dedupTsAux, if_pos hx]
        exact (ih seen).cons x
      · simp only [dedupTsAux, if_neg hx]
        exact (ih (x.1 :: seen)).cons₂ x

theorem exists_dedupTsAux {t : Int} {seen : List Int} {l : List HistRow}
    (hts : t ∉ seen) (h : ∃ x ∈ l, x.1 = t) :
    ∃ z ∈ dedupTsAux seen l, z.1 = t := by
  induction l generalizing seen with
  | nil => exact absurd h (by simp)
  | cons x xs ih =>
      by_cases hx : x.1 ∈ seen
      · simp only [dedupTsAux, if_pos hx]
        apply ih hts
        obtain ⟨w, hw, hwt⟩ := h
        rcases List.mem_cons.mp hw with rfl | hw
        · exact absurd (hwt ▸ hx) hts
        · exact ⟨w, hw, hwt⟩
      · simp only [dedupTsAux, if_neg hx]
        by_cases hxt : x.1 = t
        · exact ⟨x, List.mem_cons_self _ _, hxt⟩
        · obtain ⟨w, hw, hwt⟩ := h
          rcases List.mem_cons.mp hw with rfl | hw
          · exact absurd hwt hxt
          · have hts2 : t ∉ x.1 :: seen := by
              intro hc
              rcases List.mem_cons.mp hc with hc | hc
              · exact hxt hc.symm
              · exact hts hc
            obtain ⟨z, hz, hzt⟩ := ih hts2 ⟨w, hw, hwt⟩
            exact ⟨z, List.mem_cons_of_mem _ hz, hzt⟩

theorem pairwise_lt_dedupTs {l : List HistRow}
    (h : l.Pairwise (fun a b => a.1 ≤ b.1)) :
    (dedupTs l).Pairwise (fun a b => a.1 < b.1) := by
  have hle : (dedupTs l).Pairwise (fun a b => a.1 ≤ b.1) :=
    List.Pairwise.sublist (dedupTsAux_sublist [] l) h
  have hne : (dedupTs l).Pairwise (fun a b => a.1 ≠ b.1) :=
    (dedupTsAux_keys [] l).2
  exact (hle.and hne).imp (fun hab => lt_of_le_of_ne hab.1 hab.2)

/-- C5: for every coin id, currency, day range and HTTP outcome — in
particular for every payload shape the provider may return — the rows of
the historical series are strictly increasing in timestamp, with no
duplicate timestamps. -/
theorem hist_timestamps_strict_mono (coin_id currency : String) (days : Nat)
    (resp : HttpResult HistPayload) :
    (get_historical_data coin_id currency days resp).1.Pairwise
      (fun a b => a.1 < b.1) := by
  cases resp with
  | ok data =>
      show (histRows data.prices data.total_volumes).Pairwise _
      unfold histRows
      rcases hm : mergeStage data.prices data.total_volumes with _ | rows
      · simp
      · simpa using pairwise_lt_dedupTs (sorted_sortTs (coerceRows rows))
  | badShape => simp [get_historical_data]
  | malformedJson => simp [get_historical_data]
  | httpError s => simp [get_historical_data]
  | networkError => simp [get_historical_data]

theorem mem_coerceRows {r : HistRow} {rows : List (Int × Jv × Jv)}
    (h : r ∈ coerceRows rows) :
    ∃ s ∈ rows, s.1 = r.1 ∧ toNum s.2.1 = some r.2.1 ∧
      r.2.2 = (toNum s.2.2).getD 0 := by
  obtain ⟨s, hs, hmap⟩ := List.mem_filterMap.mp h
  obtain ⟨p, hp, hfr⟩ := Option.map_eq_some'.mp hmap
  cases hfr
  exact ⟨s, hs, rfl, hp, rfl⟩

theorem coerceRows_mem_of {s : Int × Jv × Jv} {rows : List (Int × Jv × Jv)}
    (hs : s ∈ rows) {n : Int} (hn : toNum s.2.1 = some n) :
    (s.1, n, (toNum s.2.2).getD 0) ∈ coerceRows rows :=
  List.mem_filterMap.mpr ⟨s, hs, by rw [hn]; rfl⟩

theorem mem_innerMerge {a : Int × Jv × Jv} {ps vs : List RawPoint}
    (h : a ∈ innerMerge ps vs) :
    ∃ p ∈ ps, ∃ v ∈ vs, v.1 = p.1 ∧ a = (p.1, p.2, v.2) := by
  obtain ⟨p, hp, hmem⟩ := List.mem_flatMap.mp h
  obtain ⟨v, hv, ha⟩ := List.mem_map.mp hmem
  have hv2 := List.mem_filter.mp hv
  exact ⟨p, hp, v, hv2.1, by simpa using hv2.2, ha.symm⟩

theorem innerMerge_mem_of {p v : RawPoint} {ps vs : List RawPoint}
    (hp : p ∈ ps) (hv : v ∈ vs) (heq : v.1 = p.1) :
    (p.1, p.2, v.2) ∈ innerMerge ps vs := by
  apply List.mem_flatMap.mpr
  refine ⟨p, hp, ?_⟩
  apply List.mem_map.mpr
  exact ⟨v, List.mem_filter.mpr ⟨hv, by simp [heq]⟩, rfl⟩

theorem mergeStage_isSome (ps vs : List RawPoint) (h : ps ≠ []) :
    ∃ rows, mergeStage ps vs = some rows := by
  cases ps with
  | nil => exact absurd rfl h
  | cons p0 ps1 => cases vs <;> exact ⟨_, rfl⟩

theorem mergeStage_mem {ps vs : List RawPoint} {rows : List (Int × Jv × Jv)}
    (hm : mergeStage ps vs = some rows) {s : Int × Jv × Jv} (hs : s ∈ rows) :
    (∃ p ∈ ps, p.1 = s.1 ∧ p.2 = s.2.1) ∧
    ((vs = [] ∧ s.2.2 = Jv.num 0) ∨ ∃ v ∈ vs, v.1 = s.1 ∧ v.2 = s.2.2) := by
  cases ps with
  | nil => simp [mergeStage] at hm
  | cons p0 ps1 =>
      cases vs with
      | nil =>
          simp only [mergeStage, Option.some.injEq] at hm
          subst hm
          obtain ⟨q, hq, hqe⟩ := List.mem_map.mp hs
          cases hqe
          exact ⟨⟨q, hq, rfl, rfl⟩, Or.inl ⟨rfl, rfl⟩⟩
      | cons v0 vs1 =>
          simp only [mergeStage, Option.some.injEq] at hm
          subst hm
          obtain ⟨p, hp, v, hv, hveq, hse⟩ := mem_innerMerge hs
          subst hse
          exact ⟨⟨p, hp, rfl, rfl⟩, Or.inr ⟨v, hv, hveq, rfl⟩⟩

theorem mergeStage_mem_of {ps vs : List RawPoint} {rows : List (Int × Jv × Jv)}
    (hm : mergeStage ps vs = some rows) {p : RawPoint} (hp : p ∈ ps) :
    (vs = [] → (p.1, p.2, Jv.num 0) ∈ rows) ∧
    (∀ v ∈ vs, v.1 = p.1 → (p.1, p.2, v.2) ∈ rows) := by
  cases ps with
  | nil => exact absurd hp (List.not_mem_nil p)
  | cons p0 ps1 =>
      cases vs with
      | nil =>
          simp only [mergeStage, Option.some.injEq] at hm
          subst hm
          exact ⟨fun _ => List.mem_map.mpr ⟨p, hp, rfl⟩,
            fun v hv _ => absurd hv (List.not_mem_nil v)⟩
      | cons v0 vs1 =>
          simp only [mergeStage, Option.some.injEq] at hm
          subst hm
          exact ⟨fun h => List.noConfusion h,
            fun v hv hveq => innerMerge_mem_of hp hv hveq⟩

theorem mem_histRows {r : HistRow} {ps vs : List RawPoint}
    (hr : r ∈ histRows ps vs) :
    ∃ s rows, mergeStage ps vs = some rows ∧ s ∈ rows ∧
      s.1 = r.1 ∧ toNum s.2.1 = some r.2.1 ∧
      r.2.2 = (toNum s.2.2).getD 0 := by
  unfold histRows at hr
  split at hr
  · cases hr
  · rename_i rows hm
    have h2 : r ∈ coerceRows rows := mem_sortTs.mp (mem_dedupTsAux hr)
    obtain ⟨s, hs, h1, h2', h3⟩ := mem_coerceRows h2
    exact ⟨s, rows, hm, hs, h1, h2', h3⟩

theorem histRows_mem_of {ps vs : List RawPoint} {rows : List (Int × Jv × Jv)}
    (hm : mergeStage ps vs = some rows) {s : Int × Jv × Jv} (hs : s ∈ rows)
    {n : Int} (hn : toNum s.2.1 = some n) :
    ∃ r ∈ histRows ps vs, r.1 = s.1 := by
  have hsort : (s.1, n, (toNum s.2.2).getD 0) ∈ sortTs (coerceRows rows) :=
    mem_sortTs.mpr (coerceRows_mem_of hs hn)
  obtain ⟨z, hz, hzt⟩ :=
    @exists_dedupTsAux s.1 [] (sortTs (coerceRows rows))
      (by simp) ⟨_, hsort, rfl⟩
  refine ⟨z, ?_, hzt⟩
  unfold histRows
  rw [hm]
  exact hz

/-- C4 counterexample: with an empty `prices` array and a non-empty
`total_volumes` array — exactly one of the two arrays non-empty — the
historical fetch returns the empty table: no row with volume 0 is
produced from the volume data, contrary to the claim's symmetric
reading. -/
theorem hist_volumes_only_empty :
    (get_historical_data "bitcoin" "usd" 30
        (.ok ⟨[], [((1700000000000 : Int), Jv.num 5)]⟩)).1 = [] ∧
    ((⟨[], [((1700000000000 : Int), Jv.num 5)]⟩ : HistPayload).total_volumes
      ≠ []) :=
  ⟨rfl, by simp⟩

/-- C4 amended: the historical fetch inner-joins `prices` and
`total_volumes` on timestamp. When the prices array is empty the result
is empty regardless of volumes; when only the prices array is non-empty
every produced row has volume 0. Every returned row draws its (numeric)
price from a source price point at its timestamp — rows with non-numeric
price are dropped — and carries either the defaulted volume 0 or a
numeric volume of a source volume point at its timestamp; when the
volumes array is non-empty each returned row's timestamp also occurs in
it (inner join); and a price point with a numeric price is never dropped
for lack or malformedness of volume data: it yields a row at its
timestamp whenever the volumes array is empty or contains its
timestamp. -/
theorem hist_merge_amended (coin_id currency : String) (days : Nat)
    (ps vs : List RawPoint) :
    (ps = [] →
      (get_historical_data coin_id currency days (.ok ⟨ps, vs⟩)).1 = []) ∧
    (∀ r ∈ (get_historical_data coin_id currency days (.ok ⟨ps, vs⟩)).1,
      ∃ p ∈ ps, p.1 = r.1 ∧ toNum p.2 = some r.2.1) ∧
    (∀ r ∈ (get_historical_data coin_id currency days (.ok ⟨ps, vs⟩)).1,
      r.2.2 = 0 ∨ ∃ v ∈ vs, v.1 = r.1 ∧ toNum v.2 = some r.2.2) ∧
    (vs ≠ [] →
      ∀ r ∈ (get_historical_data coin_id currency days (.ok ⟨ps, vs⟩)).1,
        ∃ v ∈ vs, v.1 = r.1) ∧
    (∀ p ∈ ps, (toNum p.2).isSome → (vs = [] ∨ ∃ v ∈ vs, v.1 = p.1) →
      ∃ r ∈ (get_historical_data coin_id currency days (.ok ⟨ps, vs⟩)).1,
        r.1 = p.1) := by
  have hE : (get_historical_data coin_id currency days (.ok ⟨ps, vs⟩)).1
      = histRows ps vs := rfl
  rw [hE]
  refine ⟨?_, ?_, ?_, ?_, ?_⟩
  · intro h
    subst h
    cases vs <;> rfl
  · intro r hr
    obtain ⟨s, rows, hm, hs, h1, h2, h3⟩ := mem_histRows hr
    obtain ⟨⟨p, hp, hp1, hp2⟩, _⟩ := mergeStage_mem hm hs
    exact ⟨p, hp, hp1.trans h1, by rw [hp2, h2]⟩
  · intro r hr
    obtain ⟨s, rows, hm, hs, h1, h2, h3⟩ := mem_histRows hr
    obtain ⟨_, hvol⟩ := mergeStage_mem hm hs
    rcases hvol with ⟨hvs, hz⟩ | ⟨v, hvmem, hv1, hv2⟩
    · left
      rw [h3, hz]
      rfl
    · cases hv : toNum s.2.2 with
      | none =>
          left
          rw [h3, hv]
          rfl
      | some w =>
          right
          refine ⟨v, hvmem, hv1.trans h1, ?_⟩
          rw [hv2, hv, h3, hv]
          rfl
  · intro hvs r hr
    obtain ⟨s, rows, hm, hs, h1, h2, h3⟩ := mem_histRows hr
    obtain ⟨_, hvol⟩ := mergeStage_mem hm hs
    rcases hvol with ⟨hvs2, _⟩ | ⟨v, hvmem, hv1, _⟩
    · exact absurd hvs2 hvs
    · exact ⟨v, hvmem, hv1.trans h1⟩
  · intro p hp hnum hcase
    have hne : ps ≠ [] := by
      intro h
      subst h
      exact absurd hp (List.not_mem_nil p)
    obtain ⟨n, hn⟩ := Option.isSome_iff_exists.mp hnum
    obtain ⟨rows, hm⟩ := mergeStage_isSome ps vs hne
    rcases hcase with rfl | ⟨v, hv, hveq⟩
    · have hs : (p.1, p.2, Jv.num 0) ∈ rows := (mergeStage_mem_of hm hp).1 rfl
      exact histRows_mem_of hm hs hn
    · have hs : (p.1, p.2, v.2) ∈ rows :=
        (mergeStage_mem_of hm hp).2 v hv hveq
      exact histRows_mem_of hm hs hn

/-- C4 amended witness: a single numeric price point and no volume data
yields a row at its timestamp, and every produced row has the defaulted
volume (0 or a payload volume — here necessarily 0). -/
theorem hist_merge_amended_witness :
    (∃ r ∈ (get_historical_data "bitcoin" "usd" 30
        (.ok ⟨[((1 : Int), Jv.num 10)], []⟩)).1, r.1 = 1) ∧
    (∀ r ∈ (get_historical_data "bitcoin" "usd" 30
        (.ok ⟨[((1 : Int), Jv.num 10)], []⟩)).1,
      r.2.2 = 0 ∨ ∃ v ∈ ([] : List RawPoint), v.1 = r.1 ∧
        toNum v.2 = some r.2.2) :=
  ⟨(hist_merge_amended "bitcoin" "usd" 30 [((1 : Int), Jv.num 10)] []).2.2.2.2
      ((1 : Int), Jv.num 10) (List.mem_cons_self _ _) rfl (Or.inl rfl),
   (hist_merge_amended "bitcoin" "usd" 30 [((1 : Int), Jv.num 10)] []).2.2.1⟩

/-- The raw `sparkline_in_7d` cell of one market row as the extraction
lambda (`isinstance(x, dict) and 'price' in x`) sees it: a dict holding
the `price` key (with its list of prices), a dict without that key, or
any non-dict value — JSON null, a number, a string, or the NaN pandas
fills in for a row lacking the key. -/
inductive SparkVal where
  | withPrice (price : List Int)
  | noPrice
  | notDict
  deriving DecidableEq, Repr

/-- The sparkline extraction lambda at `utils.py` lines 55-57. -/
def extractSpark : Option SparkVal → Option (List Int)
  | some (SparkVal.withPrice l) => some l
  | _ => none

/-- One element of the `/coins/markets` payload, restricted to the fields
the dashboard's schema requires. `none` models a key absent from the raw
dict: pandas then fills the cell with NaN (key present in some other
row) or the required-columns loop adds the column as `pd.NA` /
`[None] * len(df)` (key absent everywhere) — in both cases the row ends
up with the same explicit missing marker. -/
structure RawMarketRow where
  id : Option Jv
  name : Option Jv
  symbol : Option Jv
  current_price : Option Jv
  price_change_percentage_24h : Option Jv
  market_cap : Option Jv
  total_volume : Option Jv
  market_cap_rank : Option Jv
  sparkline_in_7d : Option SparkVal
  deriving DecidableEq, Repr

/-- One row of the dataframe `get_top_coins` returns: the required
columns (an explicit `none` marker where the payload had nothing) plus
the derived `sparkline_7d_prices` column. -/
structure MarketRow where
  id : Option Jv
  name : Option Jv
  symbol : Option Jv
  current_price : Option Jv
  price_change_percentage_24h : Option Jv
  market_cap : Option Jv
  total_volume : Option Jv
  market_cap_rank : Option Jv
  sparkline_in_7d : Option SparkVal
  sparkline_7d_prices : Option (List Int)
  deriving DecidableEq, Repr

/-- Per-row reshaping of `get_top_coins`: every schema field is carried
over (missing stays the explicit marker), and the sparkline prices are
extracted defensively. -/
def normMarketRow (r : RawMarketRow) : MarketRow :=
  ⟨r.id, r.name, r.symbol, r.current_price, r.price_change_percentage_24h,
   r.market_cap, r.total_volume, r.market_cap_rank, r.sparkline_in_7d,
   extractSpark r.sparkline_in_7d⟩

/-- The status-dependent notice of `get_top_coins`'s HTTPError handler. -/
def topCoinsHttpNotice (s : Nat) : Notice :=
  if s = 429 then .rateLimited "top coins" else .httpFailure "top coins" s

/-- `get_top_coins(currency, per_page)` from `utils.py` (lines 35-70) as a
function of the HTTP outcome: one output row per payload row on success,
the empty dataframe plus a notice on every failure (`except Exception`
absorbs processing errors). The URL requests `per_page` rows ordered by
descending market cap; the code itself neither truncates nor sorts. -/
def get_top_coins (currency : String) (per_page : Nat)
    (resp : HttpResult (List RawMarketRow)) : List MarketRow × List Notice :=
  match resp with
  | .ok data => (data.map normMarketRow, [])
  | .badShape => ([], [Notice.processingFailure "top coins"])
  | .malformedJson => ([], [Notice.networkFailure "top coins"])
  | .networkError => ([], [Notice.networkFailure "top coins"])
  | .httpError s => ([], [topCoinsHttpNotice s])

/-- Boolean comparison of two market-cap-rank cells: both numeric and
ordered. -/
def rankLEb : Option Jv → Option Jv → Bool
  | some (Jv.num x), some (Jv.num y) => decide (x ≤ y)
  | _, _ => false

/-- The rank-cell ordering used to state rank monotonicity. -/
def rankLE (a b : Option Jv) : Prop := rankLEb a b = true

/-- C6: for every currency and requested page size, provided the provider
honors the request (`per_page` bounds the payload length and
`order=market_cap_desc` makes the numeric rank column non-decreasing),
the market snapshot has at most `per_page` rows and a non-decreasing
rank column; every failure outcome yields the empty table, for which
both hold. -/
theorem top_coins_len_rank (currency : String) (per_page : Nat)
    (resp : HttpResult (List RawMarketRow))
    (hgood : ∀ data, resp = .ok data → data.length ≤ per_page ∧
      data.Pairwise (fun a b => rankLE a.market_cap_rank b.market_cap_rank)) :
    (get_top_coins currency per_page resp).1.length ≤ per_page ∧
    (get_top_coins currency per_page resp).1.Pairwise
      (fun a b => rankLE a.market_cap_rank b.market_cap_rank) := by
  cases resp with
  | ok data =>
      obtain ⟨hlen, hrank⟩ := hgood data rfl
      constructor
      · simpa [get_top_coins] using hlen
      · show (data.map normMarketRow).Pairwise _
        rw [List.pairwise_map]
        exact hrank.imp (fun hab => hab)
  | badShape => exact ⟨Nat.zero_le _, List.Pairwise.nil⟩
  | malformedJson => exact ⟨Nat.zero_le _, List.Pairwise.nil⟩
  | networkError => exact ⟨Nat.zero_le _, List.Pairwise.nil⟩
  | httpError s => exact ⟨Nat.zero_le _, List.Pairwise.nil⟩

/-- A payload row carrying only a rank, used to instantiate C6. -/
def rankedRow (k : Int) : RawMarketRow :=
  ⟨none, none, none, none, none, none, none, some (Jv.num k), none⟩

/-- C6 witness: a well-behaved two-row payload (ranks 1 and 2) under page
size 5. -/
theorem top_coins_len_rank_witness :
    (get_top_coins "usd" 5 (.ok [rankedRow 1, rankedRow 2])).1.length ≤ 5 ∧
    (get_top_coins "usd" 5 (.ok [rankedRow 1, rankedRow 2])).1.Pairwise
      (fun a b => rankLE a.market_cap_rank b.market_cap_rank) :=
  top_coins_len_rank "usd" 5 (.ok [rankedRow 1, rankedRow 2])
    (fun data h => by
      cases h
      refine ⟨by decide, ?_⟩
      refine List.Pairwise.cons ?_ (List.Pairwise.cons ?_ List.Pairwise.nil)
      · intro b hb
        rcases List.mem_cons.mp hb with rfl | hb
        · exact rfl
        · cases hb
      · intro b hb
        cases hb)

/-- C9: on any successful payload the market-snapshot fetch produces
exactly one output row per payload row (so missing fields never make it
fail), each output row carrying every schema field unchanged — an absent
payload field stays the explicit `none` marker — with the sparkline
prices extracted defensively: the row's `sparkline_7d_prices` is exactly
the defensive extraction, and it is the null marker whenever the raw
sparkline cell is absent or is not a dict holding a `price` key; no
notice is emitted. -/
theorem top_coins_missing_fields (currency : String) (per_page : Nat)
    (data : List RawMarketRow) :
    List.Forall₂ (fun (raw : RawMarketRow) (out : MarketRow) =>
        out.id = raw.id ∧ out.name = raw.name ∧ out.symbol = raw.symbol ∧
        out.current_price = raw.current_price ∧
        out.price_change_percentage_24h = raw.price_change_percentage_24h ∧
        out.market_cap = raw.market_cap ∧
        out.total_volume = raw.total_volume ∧
        out.market_cap_rank = raw.market_cap_rank ∧
        out.sparkline_7d_prices = extractSpark raw.sparkline_in_7d ∧
        ((∀ l, raw.sparkline_in_7d ≠ some (SparkVal.withPrice l)) →
          out.sparkline_7d_prices = none))
      data (get_top_coins currency per_page (.ok data)).1 ∧
    (get_top_coins currency per_page (.ok data)).2 = [] := by
  constructor
  · show List.Forall₂ _ data (data.map normMarketRow)
    rw [List.forall₂_map_right_iff]
    rw [List.forall₂_same]
    intro raw hmem
    refine ⟨rfl, rfl, rfl, rfl, rfl, rfl, rfl, rfl, rfl, ?_⟩
    intro hno
    cases hsp : raw.sparkline_in_7d with
    | none => simp [normMarketRow, extractSpark, hsp]
    | some v =>
        cases v with
        | withPrice l => exact absurd hsp (hno l)
        | noPrice => simp [normMarketRow, extractSpark, hsp]
        | notDict => simp [normMarketRow, extractSpark, hsp]
  · rfl

/-- C9 witness: a payload of one row with every field absent and one row
with a malformed (non-dict) sparkline still yields one output row each,
with `none` markers and null sparklines. -/
theorem top_coins_missing_fields_witness :
    List.Forall₂ (fun (raw : RawMarketRow) (out : MarketRow) =>
        out.id = raw.id ∧ out.name = raw.name ∧ out.symbol = raw.symbol ∧
        out.current_price = raw.current_price ∧
        out.price_change_percentage_24h = raw.price_change_percentage_24h ∧
        out.market_cap = raw.market_cap ∧
        out.total_volume = raw.total_volume ∧
        out.market_cap_rank = raw.market_cap_rank ∧
        out.sparkline_7d_prices = extractSpark raw.sparkline_in_7d ∧
        ((∀ l, raw.sparkline_in_7d ≠ some (SparkVal.withPrice l)) →
          out.sparkline_7d_prices = none))
      [⟨none, none, none, none, none, none, none, none, none⟩,
       ⟨none, none, none, none, none, none, none, none, some SparkVal.notDict⟩]
      (get_top_coins "usd" 25
        (.ok [⟨none, none, none, none, none, none, none, none, none⟩,
          ⟨none, none, none, none, none, none, none, none,
            some SparkVal.notDict⟩])).1 ∧
    (get_top_coins "usd" 25
        (.ok [⟨none, none, none, none, none, none, none, none, none⟩,
          ⟨none, none, none, none, none, none, none, none,
            some SparkVal.notDict⟩])).2 = [] :=
  top_coins_missing_fields "usd" 25
    [⟨none, none, none, none, none, none, none, none, none⟩,
     ⟨none, none, none, none, none, none, none, none, some SparkVal.notDict⟩]

/-- One element of the `/coins/{id}/ohlc` payload:
`[timestamp, open, high, low, close]`. `open` is a Lean keyword, so the
four price fields are `op`/`hi`/`lo`/`cl`. -/
structure RawOhlcRow where
  timestamp : Int
  op : Jv
  hi : Jv
  lo : Jv
  cl : Jv
  deriving DecidableEq, Repr

/-- One row of the dataframe `get_ohlc_data` returns: all four prices
numeric (rows failing that are dropped by
`dropna(subset=['open','high','low','close'])`); the `date` column is
the monotone image of `timestamp`, which is kept alongside it. -/
structure OhlcRow where
  timestamp : Int
  op : Int
  hi : Int
  lo : Int
  cl : Int
  deriving DecidableEq, Repr

/-- Numeric coercion of one OHLC row: `pd.to_numeric(errors="coerce")` on
each of the four price columns followed by the four-column `dropna`. -/
def coerceOhlc (r : RawOhlcRow) : Option OhlcRow :=
  match toNum r.op, toNum r.hi, toNum r.lo, toNum r.cl with
  | some o, some h, some l, some c => some ⟨r.timestamp, o, h, l, c⟩
  | _, _, _, _ => none

/-- All four price cells of a raw OHLC row are numeric. -/
def ohlcNumericAll (r : RawOhlcRow) : Bool :=
  (toNum r.op).isSome && (toNum r.hi).isSome &&
    (toNum r.lo).isSome && (toNum r.cl).isSome

/-- The status-dependent notice of `get_ohlc_data`'s HTTPError handler. -/
def ohlcHttpNotice (s : Nat) : Notice :=
  if s = 429 then .rateLimited "OHLC data"
  else if s = 401 then .unauthorized "OHLC data"
  else if s = 404 then .notFound "OHLC data"
  else .httpFailure "OHLC data" s

/-- `get_ohlc_data(coin_id, currency, days)` from `utils.py` (lines
178-212) as a function of the HTTP outcome: row order is preserved, rows
with any non-numeric price cell are dropped, and every failure path
returns the empty table plus a notice. -/
def get_ohlc_data (coin_id currency : String) (days : Nat)
    (resp : HttpResult (List RawOhlcRow)) : List OhlcRow × List Notice :=
  match resp with
  | .ok data => (data.filterMap coerceOhlc, [])
  | .badShape => ([], [Notice.processingFailure "OHLC data"])
  | .malformedJson => ([], [Notice.networkFailure "OHLC data"])
  | .networkError => ([], [Notice.networkFailure "OHLC data"])
  | .httpError s => ([], [ohlcHttpNotice s])

theorem coerceOhlc_eq_none {r : RawOhlcRow} (h : ohlcNumericAll r = false) :
    coerceOhlc r = none := by
  unfold ohlcNumericAll at h
  unfold coerceOhlc
  cases ho : toNum r.op <;> cases hh : toNum r.hi <;>
    cases hl : toNum r.lo <;> cases hc : toNum r.cl <;>
    simp [ho, hh, hl, hc] at h ⊢

theorem coerceOhlc_eq_some {r : RawOhlcRow} (h : ohlcNumericAll r = true) :
    ∃ o hg l c, toNum r.op = some o ∧ toNum r.hi = some hg ∧
      toNum r.lo = some l ∧ toNum r.cl = some c ∧
      coerceOhlc r = some ⟨r.timestamp, o, hg, l, c⟩ := by
  unfold ohlcNumericAll at h
  rcases ho : toNum r.op with _ | o
  · simp [ho] at h
  rcases hh : toNum r.hi with _ | hg
  · simp [ho, hh] at h
  rcases hl : toNum r.lo with _ | l
  · simp [ho, hh, hl] at h
  rcases hc : toNum r.cl with _ | c
  · simp [ho, hh, hl, hc] at h
  exact ⟨o, hg, l, c, rfl, rfl, rfl, rfl, by unfold coerceOhlc; rw [ho, hh, hl, hc]⟩

/-- C7: each returned OHLC row corresponds, in order, to exactly the
payload rows whose four price cells are all numeric — a row missing (or
holding a non-numeric value for) any one of open, high, low or close is
dropped entirely, and every returned row carries the four numeric values
of its source row. In particular a row with a null low never appears. -/
theorem ohlc_rows_all_numeric (coin_id currency : String) (days : Nat)
    (data : List RawOhlcRow) :
    List.Forall₂ (fun (raw : RawOhlcRow) (out : OhlcRow) =>
        out.timestamp = raw.timestamp ∧ toNum raw.op = some out.op ∧
        toNum raw.hi = some out.hi ∧ toNum raw.lo = some out.lo ∧
        toNum raw.cl = some out.cl)
      (data.filter ohlcNumericAll)
      (get_ohlc_data coin_id currency days (.ok data)).1 := by
  show List.Forall₂ _ (data.filter ohlcNumericAll) (data.filterMap coerceOhlc)
  induction data with
  | nil => exact List.Forall₂.nil
  | cons r rest ih =>
      by_cases hr : ohlcNumericAll r = true
      · obtain ⟨o, hg, l, c, ho, hh, hl, hc, hco⟩ := coerceOhlc_eq_some hr
        rw [List.filter_cons_of_pos hr, List.filterMap_cons_some hco]
        exact List.Forall₂.cons ⟨rfl, ho, hh, hl, hc⟩ ih
      · have hr2 : ohlcNumericAll r = false := by
          cases h : ohlcNumericAll r
          · rfl
          · exact absurd h hr
        rw [List.filter_cons_of_neg (by simp [hr2]),
          List.filterMap_cons_none (coerceOhlc_eq_none hr2)]
        exact ih

/-- C7 witness: the spec's scenario — a payload with one fully numeric
row and one row whose low is null; the null-low row is absent from the
result and the surviving row carries its four numeric prices. -/
theorem ohlc_rows_all_numeric_witness :
    List.Forall₂ (fun (raw : RawOhlcRow) (out : OhlcRow) =>
        out.timestamp = raw.timestamp ∧ toNum raw.op = some out.op ∧
        toNum raw.hi = some out.hi ∧ toNum raw.lo = some out.lo ∧
        toNum raw.cl = some out.cl)
      ([⟨1, Jv.num 10, Jv.num 12, Jv.num 9, Jv.num 11⟩,
        ⟨2, Jv.num 11, Jv.num 13, Jv.null, Jv.num 12⟩].filter ohlcNumericAll)
      (get_ohlc_data "bitcoin" "usd" 30
        (.ok [⟨1, Jv.num 10, Jv.num 12, Jv.num 9, Jv.num 11⟩,
          ⟨2, Jv.num 11, Jv.num 13, Jv.null, Jv.num 12⟩])).1 :=
  ohlc_rows_all_numeric "bitcoin" "usd" 30
    [⟨1, Jv.num 10, Jv.num 12, Jv.num 9, Jv.num 11⟩,
     ⟨2, Jv.num 11, Jv.num 13, Jv.null, Jv.num 12⟩]
